import Mathlib

/-!
Shallow embedding of the git-diff-clone sources (src/src/Differ.py and
src/src/utilities.py).  Python lists indexed with possibly negative
indices are modelled with wrap-around indexing (Int.emod by the length),
matching Python semantics for in-range negative indices.  Loops are
modelled by structural recursion on an explicit fuel argument that is
always at least the number of iterations the Python loop can perform, so
the embedded functions compute exactly what the Python loops compute.
Python code that raises an exception is modelled by returning none.
-/

/-- A line of a file: zero-based line number and text (utilities.Line).
Equality for diffing purposes compares only the text. -/
structure Line where
  num : Nat
  text : String
deriving DecidableEq, Inhabited, Repr

/-- Line.__eq__ : lines compare equal when their texts are equal. -/
def lineEq (x y : Line) : Bool := x.text == y.text

/-- Python list read v[k] with wrap-around for negative k (in-range). -/
def pyGet (v : List Int) (k : Int) : Int := v.getD (k.emod v.length).toNat (-1)

/-- Python list write v[k] = x with wrap-around for negative k (in-range). -/
def pySet (v : List Int) (k : Int) (x : Int) : List Int :=
  v.set (k.emod v.length).toNat x

/-- The snake loop of myers_diff: while x < m and y < n and a[x] == b[y],
advance x and y.  Fuel bounds the iteration count. -/
def snakeGo (a b : List Line) : Nat → Int → Int → Int × Int
  | 0, x, y => (x, y)
  | fuel+1, x, y =>
    if x < (a.length : Int) ∧ y < (b.length : Int) ∧
        lineEq (a.getD (x.emod a.length).toNat default)
               (b.getD (y.emod b.length).toNat default) = true then
      snakeGo a b fuel (x+1) (y+1)
    else (x, y)

/-- The snake loop with enough fuel for any reachable entry state. -/
def snake (a b : List Line) (x y : Int) : Int × Int :=
  snakeGo a b (a.length + b.length + 2) x y

/-- range(-d, d+1, 2), the diagonals visited for edit distance d. -/
def kRange (d : Nat) : List Int :=
  (List.range (d+1)).map (fun i => -(d : Int) + 2 * i)

/-- The inner k-loop of myers_diff for one edit distance.  Returns either
the updated frontier array (loop ran to completion) or the endpoint (x, y)
at which the source returns the trace.  Note the source checks
x >= n and y >= m, i.e. x against the length of b and y against the
length of a. -/
def myersInner (a b : List Line) (m n dI : Int) :
    List Int → List Int → (List Int) ⊕ (Int × Int)
  | [], v => Sum.inl v
  | k :: ks, v =>
    let x := if k = -dI ∨ (k ≠ dI ∧ pyGet v (k-1) < pyGet v (k+1)) then
        pyGet v (k+1)
      else pyGet v (k-1) + 1
    let p := snake a b x (x - k)
    let v2 := pySet v k p.1
    if n ≤ p.1 ∧ m ≤ p.2 then Sum.inr p
    else myersInner a b m n dI ks v2

/-- The outer d-loop of myers_diff.  Fuel plays the role of
range(MAX+1); exhausting it models the raised Exception. -/
def myersOuter (a b : List Line) (m n : Int) :
    Nat → Nat → List Int → List (List Int) →
    Option (List (List Int) × Int × Int)
  | 0, _, _, _ => none
  | fuel+1, d, v, trace =>
    match myersInner a b m n (d : Int) (kRange d) v with
    | Sum.inr p => some (trace, p.1, p.2)
    | Sum.inl v2 => myersOuter a b m n fuel (d+1) v2 (trace ++ [v2])

/-- myers_diff together with the endpoint (x, y) at which it returned.
For m + n = 0 the source raises IndexError at v[1] = 0 (v has length 1),
modelled as none.  Exhausting the d-loop (the raise at the end) is also
none. -/
def myers_diff_run (a b : List Line) :
    Option (List (List Int) × Int × Int) :=
  let m := a.length
  let n := b.length
  if m + n = 0 then none
  else
    let v0 := (List.replicate (2 * (m + n) + 1) (-1 : Int)).set 1 0
    myersOuter a b m n (m + n + 1) 0 v0 []

/-- myers_diff as in the source: just the trace. -/
def myers_diff (a b : List Line) : Option (List (List Int)) :=
  (myers_diff_run a b).map (fun r => r.1)

/-- One backward step (prev_x, prev_y, x, y) through the edit graph,
as yielded by myers_backtrack. -/
structure Move where
  prev_x : Int
  prev_y : Int
  x : Int
  y : Int
deriving DecidableEq, Inhabited, Repr

/-- The while x > prev_x and y > prev_y loop of myers_backtrack: yields
diagonal moves and returns the final (x, y). -/
def backSnakeGo : Nat → Int → Int → Int → Int → List Move × Int × Int
  | 0, x, y, _, _ => ([], x, y)
  | fuel+1, x, y, px, py =>
    if px < x ∧ py < y then
      let r := backSnakeGo fuel (x-1) (y-1) px py
      (⟨x-1, y-1, x, y⟩ :: r.1, r.2.1, r.2.2)
    else ([], x, y)

/-- The backtracking snake loop with enough fuel. -/
def backSnake (x y px py : Int) : List Move × Int × Int :=
  backSnakeGo ((x - px).toNat + 1) x y px py

/-- The final while x > 0 and y > 0 loop of myers_backtrack. -/
def finalSnakeGo : Nat → Int → Int → List Move
  | 0, _, _ => []
  | fuel+1, x, y =>
    if 0 < x ∧ 0 < y then ⟨x-1, y-1, x, y⟩ :: finalSnakeGo fuel (x-1) (y-1)
    else []

/-- The final snake loop with enough fuel. -/
def finalSnake (x y : Int) : List Move := finalSnakeGo (x.toNat + 1) x y

/-- The loop of myers_backtrack over the reversed enumerated trace,
producing moves in yield order. -/
def backGo : List (Nat × List Int) → Int → Int → List Move
  | [], x, y => finalSnake x y
  | (d, v) :: rest, x, y =>
    let k := x - y
    let prev_k :=
      if k = -(d : Int) ∨ (k ≠ (d : Int) ∧ pyGet v (k-1) < pyGet v (k+1)) then
        k + 1
      else k - 1
    let px := pyGet v prev_k
    let py := px - prev_k
    let r := backSnake x y px py
    r.1 ++ (if 0 < d then [⟨px, py, r.2.1, r.2.2⟩] else []) ++ backGo rest px py

/-- myers_backtrack: the list of moves in the order the generator yields
them (sink towards origin). -/
def myers_backtrack (trace : List (List Int)) (a b : List Line) : List Move :=
  backGo trace.enum.reverse a.length b.length

/-- The three edit kinds. -/
inductive EditType
  | insert
  | delete
  | equal
deriving DecidableEq, Inhabited, Repr

/-- utilities.SYMBOLS. -/
def SYMBOLS (t : EditType) : String :=
  match t with
  | .insert => "+"
  | .delete => "-"
  | .equal => " "

/-- utilities.TERM_COLORS. -/
def TERM_COLORS (t : EditType) : String :=
  match t with
  | .insert => "\x1b[92m"
  | .equal => ""
  | .delete => "\x1b[91m"

/-- utilities.TERM_COLORS["end"]. -/
def TERM_END : String := "\x1b[0m"

/-- utilities.Edit: an edit with its type and the old and new lines it
references (both always present, since the classifier in
Differ.myers_git_diff only constructs an Edit when both lines exist). -/
structure Edit where
  edit_type : EditType
  old : Line
  new : Line
deriving DecidableEq, Inhabited, Repr

/-- Edit.__str__. -/
def editStr (e : Edit) : String :=
  let line := if e.edit_type == EditType.delete then e.old else e.new
  TERM_COLORS e.edit_type ++ SYMBOLS e.edit_type ++ "    " ++ line.text
    ++ "    " ++ TERM_END

/-- The body of the loop in Differ.myers_git_diff: turn one move into an
Edit, or none when the source skips it (a_line or b_line is None).  The
source tests only prev_x < m before indexing a; the embedding also
requires 0 <= prev_x, the range on which Python indexing and list
indexing agree, and likewise for prev_y. -/
def classifyMove (a b : List Line) (mv : Move) : Option Edit :=
  let aLine : Option Line :=
    if 0 ≤ mv.prev_x ∧ mv.prev_x < (a.length : Int) then
      some (a.getD mv.prev_x.toNat default)
    else none
  let bLine : Option Line :=
    if 0 ≤ mv.prev_y ∧ mv.prev_y < (b.length : Int) then
      some (b.getD mv.prev_y.toNat default)
    else none
  match aLine, bLine with
  | some la, some lb =>
    if mv.x = mv.prev_x then some ⟨.insert, la, lb⟩
    else if mv.y = mv.prev_y then some ⟨.delete, la, lb⟩
    else some ⟨.equal, la, lb⟩
  | _, _ => none

/-- Differ.myers_git_diff.  The deque appendleft reverses yield order,
so the result is the reverse of the classified move list.  none models
the exception propagated from myers_diff. -/
def myers_git_diff (a b : List Line) : Option (List Edit) :=
  (myers_diff a b).map
    (fun trace => ((myers_backtrack trace a b).filterMap (classifyMove a b)).reverse)

/-- Differ.BUFFER. -/
def BUFFER : Nat := 6

/-- The diff_locs computation of Differ.diff: zero-based positions of
the non-equal edits. -/
def diffLocsGo : Nat → List Edit → List Nat
  | _, [] => []
  | n, e :: rest =>
    if e.edit_type ≠ EditType.equal then n :: diffLocsGo (n+1) rest
    else diffLocsGo (n+1) rest

/-- Positions of the non-equal edits in an edit list. -/
def diff_locs (l : List Edit) : List Nat := diffLocsGo 0 l

/-- The chunk-building loop of Differ.diff, after its first iteration
has seeded chunk_start and prev_loc with the first location. -/
def chunkGo (total : Nat) :
    List Nat → Nat → Nat → Nat → List (Nat × Nat) → List (Nat × Nat)
  | [], _, _, _, acc => acc
  | loc :: rest, num, chunk_start, prev_loc, acc =>
    if loc - prev_loc ≤ BUFFER ∧ num ≠ total - 1 then
      chunkGo total rest (num+1) chunk_start loc acc
    else if num ≠ total - 1 then
      chunkGo total rest (num+1) loc loc (acc ++ [(chunk_start, prev_loc)])
    else
      acc ++ [(chunk_start, loc)]

/-- The chunk_locs computed by Differ.diff: more than one change runs the
grouping loop, exactly one change hard-codes the chunk (0, 0), and no
changes produce no chunks. -/
def chunk_locs (l : List Edit) : List (Nat × Nat) :=
  let locs := diff_locs l
  match locs with
  | [] => []
  | [_] => [(0, 0)]
  | l0 :: rest => chunkGo locs.length rest 1 l0 l0 []

/-- The slice diff[max(0, start - BUFFER) : min(len(diff), end + 1 + BUFFER)]
printed for a chunk by Differ.diff. -/
def window (l : List Edit) (c : Nat × Nat) : List Edit :=
  let lo := c.1 - BUFFER
  let hi := min l.length (c.2 + 1 + BUFFER)
  (l.drop lo).take (hi - lo)

/-- The half-open interval of edit-list positions a chunk prints. -/
def windowRange (l : List Edit) (c : Nat × Nat) : Nat × Nat :=
  (c.1 - BUFFER, min l.length (c.2 + 1 + BUFFER))

/-- The git-style header line Differ.diff prints for one window of edits. -/
def hunkHeader (w : List Edit) : String :=
  let insertions := (w.filter (fun e => e.edit_type == EditType.insert)).length
  let deletions := (w.filter (fun e => e.edit_type == EditType.delete)).length
  let e0 := w.headD default
  "@@   -" ++ toString e0.old.num ++ "," ++ toString (w.length - insertions)
    ++ " +" ++ toString e0.new.num ++ "," ++ toString (w.length - deletions)
    ++ "   @@"

/-- All the lines Differ.diff prints for one chunk: header, rendered
edits, and the blank separator line. -/
def hunkLines (l : List Edit) (c : Nat × Nat) : List String :=
  (hunkHeader (window l c) :: (window l c).map editStr) ++ [""]

/-- Everything Differ.diff prints after the filename header lines:
the rendered hunks, in order.  none models a propagated exception. -/
def diffBody (a b : List Line) : Option (List String) :=
  (myers_git_diff a b).map (fun l => ((chunk_locs l).map (hunkLines l)).flatten)

/-- Number of non-equal edits in an edit list. -/
def countChanges (l : List Edit) : Nat :=
  (l.filter (fun e => e.edit_type != EditType.equal)).length

/-- Old lines of the non-insert edits, in order. -/
def oldLines (l : List Edit) : List Line :=
  (l.filter (fun e => e.edit_type != EditType.insert)).map (fun e => e.old)

/-- New lines of the non-delete edits, in order. -/
def newLines (l : List Edit) : List Line :=
  (l.filter (fun e => e.edit_type != EditType.delete)).map (fun e => e.new)

/-- Modelled from the spec: the independent dynamic-programming
reference for the insert/delete-only edit distance (no substitutions)
named by §8 of the spec as the oracle the edit script is compared
against.  Fuel is the sum of the lengths, which bounds the recursion
depth. -/
def specEditDistanceGo : Nat → List Line → List Line → Nat
  | _, [], b => b.length
  | _, a, [] => a.length
  | 0, _, _ => 0
  | fuel+1, x :: a, y :: b =>
    let del := specEditDistanceGo fuel a (y :: b) + 1
    let ins := specEditDistanceGo fuel (x :: a) b + 1
    if lineEq x y then min (specEditDistanceGo fuel a b) (min del ins)
    else min del ins

/-- Modelled from the spec: insert/delete-only edit distance between two
line sequences. -/
def specEditDistance (a b : List Line) : Nat :=
  specEditDistanceGo (a.length + b.length) a b

/-- Number of printed hunks whose printed window covers a given
edit-list position. -/
def hunksCovering (l : List Edit) (pos : Nat) : Nat :=
  ((chunk_locs l).filter
    (fun c => decide ((windowRange l c).1 ≤ pos) && decide (pos < (windowRange l c).2))).length

/-- Document.lines: pair each text with its zero-based line number. -/
def linesOfGo : Nat → List String → List Line
  | _, [] => []
  | n, t :: ts => ⟨n, t⟩ :: linesOfGo (n+1) ts

/-- Build a line sequence from a list of texts, numbering from zero. -/
def linesOf (ts : List String) : List Line := linesOfGo 0 ts

/-- The Equal edit the classifier builds for a matched line. -/
def equalEdit (l : Line) : Edit := ⟨EditType.equal, l, l⟩

/-- Old file of the concrete replace-middle-line scenario. -/
def abcDoc : List Line := linesOf ["a", "b", "c"]

/-- New file of the concrete replace-middle-line scenario. -/
def axcDoc : List Line := linesOf ["a", "x", "c"]

/-- Old file with a single change after seven identical leading lines. -/
def lateChangeA : List Line :=
  linesOf ["p0", "p1", "p2", "p3", "p4", "p5", "p6", "b", "z"]

/-- New file with a single change after seven identical leading lines. -/
def lateChangeB : List Line :=
  linesOf ["p0", "p1", "p2", "p3", "p4", "p5", "p6", "x", "z"]

/-- Old file whose two changed lines are separated by sixteen common lines. -/
def farApartA : List Line :=
  linesOf ["b", "c0", "c1", "c2", "c3", "c4", "c5", "c6", "c7", "c8", "c9",
    "c10", "c11", "c12", "c13", "c14", "c15", "d"]

/-- New file whose two changed lines are separated by sixteen common lines. -/
def farApartB : List Line :=
  linesOf ["x", "c0", "c1", "c2", "c3", "c4", "c5", "c6", "c7", "c8", "c9",
    "c10", "c11", "c12", "c13", "c14", "c15", "y"]

/-- C1: evaluation at the failing input A = ["a"], B = [] (M = 1, N = 0).
The search returns with furthest reach (x, y) = (0, 1): the source checks
x against the length of B and y against the length of A, the reverse of
the check the claim states, so with M different from N it stops at a
point that is not the sink (M, N) = (1, 0). -/
theorem C1_swapped_termination :
    myers_diff_run (linesOf ["a"]) [] = some ([[0, 0, -1]], 0, 1) ∧
    ((0 : Int), (1 : Int)) ≠ ((1 : Int), (0 : Int)) := by
  decide

/-- C2: evaluation at the failing input A = ["a"], B = ["b"].  The
returned edit list is empty (zero non-Equal edits), while the
insert/delete-only edit distance computed by the dynamic-programming
reference is 2, so the claimed equality does not hold on the code. -/
theorem C2_distance_mismatch :
    myers_git_diff (linesOf ["a"]) (linesOf ["b"]) = some [] ∧
    countChanges [] = 0 ∧
    specEditDistance (linesOf ["a"]) (linesOf ["b"]) = 2 := by
  decide

/-- C3: evaluation at the failing input A = ["a","b","c"],
B = ["a","x","c"].  The old lines of the non-Insert edits concatenate to
["a","c"], not to A: the Delete of "b" is dropped by the backtracker. -/
theorem C3_reconstruction_broken :
    (myers_git_diff abcDoc axcDoc).map oldLines =
      some [⟨0, "a"⟩, ⟨2, "c"⟩] ∧
    ([⟨0, "a"⟩, ⟨2, "c"⟩] : List Line) ≠ abcDoc := by
  decide

/-- C4: evaluation at the failing input A = [], B = ["a"].  The insert
move has prev_x = 0, which is not below len(A) = 0, so the classifier
discards the edit instead of resolving its old line to absent: the edit
list is empty and no hunk is printed at all. -/
theorem C4_insert_into_empty_dropped :
    myers_git_diff [] (linesOf ["a"]) = some [] ∧
    diffBody [] (linesOf ["a"]) = some [] := by
  decide

/-- C5: evaluation at the failing input (one change at edit-list
position 7).  The computed edit list has exactly one non-Equal edit, at
position 7, but the single-change special case hard-codes the chunk
(0, 0), whose printed window is positions 0 to 6; the change is covered
by zero hunks rather than exactly one. -/
theorem C5_single_change_uncovered :
    (myers_git_diff lateChangeA lateChangeB).map
      (fun l => (diff_locs l, hunksCovering l 7)) = some ([7], 0) := by
  decide

/-- C7: evaluation at the failing input A = ["a","b","c"],
B = ["a","x","c"].  The edit script has only three edits, the Delete of
"b" having been dropped, and the printed hunk header is
"@@   -0,2 +0,3   @@": zero-indexed, with different spacing and lengths
than the claimed "@@ -1,3 +1,3 @@"; the body lines carry colour codes
and four spaces of padding around the text rather than a bare
one-character marker. -/
theorem C7_concrete_scenario :
    myers_git_diff abcDoc axcDoc =
      some [⟨EditType.equal, ⟨0, "a"⟩, ⟨0, "a"⟩⟩,
        ⟨EditType.insert, ⟨2, "c"⟩, ⟨1, "x"⟩⟩,
        ⟨EditType.equal, ⟨2, "c"⟩, ⟨2, "c"⟩⟩] ∧
    diffBody abcDoc axcDoc =
      some ["@@   -0,2 +0,3   @@", "     a    \x1b[0m",
        "\x1b[92m+    x    \x1b[0m", "     c    \x1b[0m", ""] := by
  decide

/-- C8: evaluation at the failing input.  The computed edit list has
exactly two non-Equal edits, at positions 0 and 17, separated by sixteen
Equal edits (more than 2*C+1 = 13), yet the grouping loop merges them
into a single hunk: its final-iteration branch always merges the last
change location into the current chunk instead of starting a second
one. -/
theorem C8_far_changes_one_hunk :
    (myers_git_diff farApartA farApartB).map
      (fun l => (l.length, diff_locs l, (chunk_locs l).length)) =
      some (18, [0, 17], 1) := by
  decide

/-- C9: evaluation at the failing input A = [], B = [].  The frontier
array has length 1 and the initialisation v[1] = 0 raises IndexError
before the search starts, so myers_diff does raise on a valid input. -/
theorem C9_empty_pair_raises : myers_diff ([] : List Line) [] = none := by
  decide

theorem pyGet_set_replicate (L i : Nat) (x : Int) (hi : i < L) :
    pyGet ((List.replicate L (-1 : Int)).set i x) i = x := by
  unfold pyGet
  rw [List.length_set, List.length_replicate]
  have hemod : ((i : Int)).emod L = i := by
    show (i : Int) % (L : Int) = i
    rw [Int.emod_eq_of_lt (by positivity) (by exact_mod_cast hi)]
  rw [hemod]
  rw [Int.toNat_ofNat]
  rw [List.getD_eq_getElem?_getD, List.getElem?_set_self (by simpa using hi)]
  simp

theorem snakeGo_self (a : List Line) :
    ∀ fuel x, a.length - x ≤ fuel → x ≤ a.length →
      snakeGo a a fuel (x : Int) (x : Int) = ((a.length : Int), (a.length : Int))
  | 0, x, h1, h2 => by
    have hx : x = a.length := by omega
    subst hx
    rfl
  | fuel+1, x, h1, h2 => by
    rcases Nat.lt_or_ge x a.length with hx | hx
    · simp only [snakeGo]
      rw [if_pos]
      · have hc : ((x : Int) + 1) = ((x + 1 : Nat) : Int) := by push_cast; ring
        rw [hc]
        exact snakeGo_self a fuel (x+1) (by omega) (by omega)
      · refine ⟨by exact_mod_cast hx, by exact_mod_cast hx, ?_⟩
        have hemod : ((x : Int)).emod (a.length) = (x : Int) := by
          show (x : Int) % (a.length : Int) = x
          rw [Int.emod_eq_of_lt (by positivity) (by exact_mod_cast hx)]
        rw [hemod]
        simp [lineEq]
    · have hx2 : x = a.length := by omega
      subst hx2
      simp only [snakeGo]
      rw [if_neg]
      · intro hcon
        exact absurd hcon.1 (by simp)

theorem snake_self (a : List Line) :
    snake a a 0 0 = ((a.length : Int), (a.length : Int)) := by
  unfold snake
  have h := snakeGo_self a (a.length + a.length + 2) 0 (by omega) (by omega)
  simpa using h

theorem myersInner_self (a : List Line) (hlen : a.length ≠ 0) :
    myersInner a a (a.length : Int) (a.length : Int) ((0 : Nat) : Int) [0]
      ((List.replicate (2 * (a.length + a.length) + 1) (-1 : Int)).set 1 0) =
      Sum.inr ((a.length : Int), (a.length : Int)) := by
  have h1 : pyGet ((List.replicate (2 * (a.length + a.length) + 1) (-1 : Int)).set 1 0)
      ((0 : Int) + 1) = 0 := by
    have h := pyGet_set_replicate (2 * (a.length + a.length) + 1) 1 0 (by omega)
    simpa using h
  simp only [myersInner]
  rw [if_pos (Or.inl (by simp))]
  rw [h1]
  have hsn : snake a a 0 ((0 : Int) - 0) = ((a.length : Int), (a.length : Int)) := by
    norm_num [snake_self]
  rw [hsn]
  rw [if_pos ⟨le_refl _, le_refl _⟩]

theorem myers_diff_run_self (a : List Line) (ha : a ≠ []) :
    myers_diff_run a a = some ([], (a.length : Int), (a.length : Int)) := by
  have hlen : a.length ≠ 0 := by simpa [List.length_eq_zero] using ha
  have hkr : kRange 0 = [0] := by decide
  simp only [myers_diff_run]
  rw [if_neg (by omega)]
  simp only [myersOuter]
  rw [hkr, myersInner_self a hlen]

theorem classifyMove_diag (a : List Line) (j : Nat) (hj : j < a.length) :
    classifyMove a a ⟨(j : Int), (j : Int), (j : Int) + 1, (j : Int) + 1⟩ =
      some (equalEdit (a.getD j default)) := by
  simp only [classifyMove]
  rw [if_pos ⟨by positivity, by exact_mod_cast hj⟩]
  rw [Int.toNat_ofNat]
  have hne : ¬ ((j : Int) + 1 = (j : Int)) := by omega
  simp [equalEdit, hne]

theorem finalSnakeGo_classify (a : List Line) :
    ∀ fuel j, j ≤ fuel → j ≤ a.length →
      (finalSnakeGo fuel (j : Int) (j : Int)).filterMap (classifyMove a a) =
        ((a.take j).map equalEdit).reverse
  | 0, j, h1, h2 => by
    have hj : j = 0 := by omega
    subst hj
    simp [finalSnakeGo]
  | fuel+1, 0, h1, h2 => by
    simp [finalSnakeGo]
  | fuel+1, j+1, h1, h2 => by
    simp only [finalSnakeGo]
    rw [if_pos ⟨by positivity, by positivity⟩]
    have hc : ((j + 1 : Nat) : Int) - 1 = ((j : Nat) : Int) := by push_cast; ring
    rw [List.filterMap_cons]
    rw [hc]
    have hmv : classifyMove a a ⟨(j : Int), (j : Int), ((j + 1 : Nat) : Int), ((j + 1 : Nat) : Int)⟩ =
        some (equalEdit (a.getD j default)) := by
      have h := classifyMove_diag a j (by omega)
      have hcast : ((j + 1 : Nat) : Int) = (j : Int) + 1 := by push_cast; ring
      rw [hcast]
      exact h
    rw [hmv]
    rw [finalSnakeGo_classify a fuel j (by omega) (by omega)]
    have htake : a.take (j+1) = a.take j ++ [a.getD j default] := by
      rw [List.take_succ]
      congr 1
      rw [List.getElem?_eq_getElem (by omega : j < a.length),
        List.getD_eq_getElem _ _ (by omega : j < a.length)]
      rfl
    rw [htake]
    simp

theorem myers_git_diff_self (a : List Line) (ha : a ≠ []) :
    myers_git_diff a a = some (a.map equalEdit) := by
  unfold myers_git_diff myers_diff
  rw [myers_diff_run_self a ha]
  simp only [Option.map_some']
  congr 1
  unfold myers_backtrack
  simp only [List.enum_nil, List.reverse_nil]
  unfold backGo finalSnake
  rw [show ((a.length : Int)).toNat = a.length from by omega]
  rw [finalSnakeGo_classify a (a.length + 1) a.length (by omega) (le_refl _)]
  rw [List.take_length, List.reverse_reverse]

theorem diffLocsGo_equal (a : List Line) :
    ∀ n, diffLocsGo n (a.map equalEdit) = [] := by
  induction a with
  | nil => intro n; rfl
  | cons x xs ih =>
    intro n
    simp only [List.map_cons, diffLocsGo, equalEdit]
    rw [if_neg (by simp)]
    exact ih (n+1)

theorem chunk_locs_equal (a : List Line) : chunk_locs (a.map equalEdit) = [] := by
  unfold chunk_locs diff_locs
  rw [diffLocsGo_equal a 0]

/-- C6 (amended): for every nonempty line sequence A, diffing A against
itself yields the edit list of one Equal edit per line of A, in order,
and zero hunks, so no hunk output is printed.  (For A = [] the code
instead raises IndexError, refuted separately.) -/
theorem C6_identity_nonempty (a : List Line) (ha : a ≠ []) :
    myers_git_diff a a = some (a.map equalEdit) ∧
    chunk_locs (a.map equalEdit) = [] ∧
    diffBody a a = some [] := by
  refine ⟨myers_git_diff_self a ha, chunk_locs_equal a, ?_⟩
  unfold diffBody
  rw [myers_git_diff_self a ha]
  simp only [Option.map_some']
  rw [chunk_locs_equal a]
  rfl

/-- C6 counterexample: diffing the empty sequence against itself does not
yield an edit list at all; the source raises IndexError while setting
v[1] on the length-1 frontier array. -/
theorem C6_empty_identity_fails : myers_git_diff ([] : List Line) [] = none := by
  decide

/-- C6 witness: the amended identity law evaluated at the one-line file. -/
theorem C6_identity_witness :
    myers_git_diff [({ num := 0, text := "a" } : Line)] [{ num := 0, text := "a" }] =
      some [equalEdit { num := 0, text := "a" }] ∧
    chunk_locs [equalEdit ({ num := 0, text := "a" } : Line)] = [] ∧
    diffBody [({ num := 0, text := "a" } : Line)] [{ num := 0, text := "a" }] = some [] :=
  C6_identity_nonempty [{ num := 0, text := "a" }] (by decide)

theorem classifyMove_fromLines (a b : List Line) (mv : Move) (e : Edit)
    (h : classifyMove a b mv = some e) :
    (∃ i, i < a.length ∧ e.old = a.getD i default) ∧
    (∃ j, j < b.length ∧ e.new = b.getD j default) := by
  simp only [classifyMove] at h
  by_cases h1 : 0 ≤ mv.prev_x ∧ mv.prev_x < (a.length : Int)
  · by_cases h2 : 0 ≤ mv.prev_y ∧ mv.prev_y < (b.length : Int)
    · rw [if_pos h1, if_pos h2] at h
      have hi : mv.prev_x.toNat < a.length := by omega
      have hj : mv.prev_y.toNat < b.length := by omega
      refine ⟨⟨mv.prev_x.toNat, hi, ?_⟩, ⟨mv.prev_y.toNat, hj, ?_⟩⟩ <;>
        · split_ifs at h <;> (cases h; rfl)
    · rw [if_pos h1, if_neg h2] at h
      exact absurd h (by simp)
  · rw [if_neg h1] at h
    by_cases h2 : 0 ≤ mv.prev_y ∧ mv.prev_y < (b.length : Int)
    · rw [if_pos h2] at h
      exact absurd h (by simp)
    · rw [if_neg h2] at h
      exact absurd h (by simp)

/-- C10: every edit returned by myers_git_diff references a real line of
A as its old line and a real line of B as its new line, so rendering an
edit or reading the line numbers of the first edit of a window never
touches an absent line. -/
theorem C10_edits_reference_real_lines (a b : List Line) (l : List Edit)
    (h : myers_git_diff a b = some l) :
    ∀ e ∈ l, (∃ i, i < a.length ∧ e.old = a.getD i default) ∧
      (∃ j, j < b.length ∧ e.new = b.getD j default) := by
  intro e he
  unfold myers_git_diff at h
  cases htr : myers_diff a b with
  | none => rw [htr] at h; exact absurd h (by simp)
  | some trace =>
    rw [htr] at h
    simp only [Option.map_some'] at h
    have hl : l = ((myers_backtrack trace a b).filterMap (classifyMove a b)).reverse :=
      (Option.some.injEq _ _ ▸ h).symm
    rw [hl, List.mem_reverse, List.mem_filterMap] at he
    obtain ⟨mv, _, hcl⟩ := he
    exact classifyMove_fromLines a b mv e hcl

/-- C10 witness: the invariant evaluated on the one-line identity diff. -/
theorem C10_witness :
    (∃ i, i < 1 ∧ (equalEdit { num := 0, text := "a" }).old =
      [({ num := 0, text := "a" } : Line)].getD i default) ∧
    (∃ j, j < 1 ∧ (equalEdit { num := 0, text := "a" }).new =
      [({ num := 0, text := "a" } : Line)].getD j default) :=
  C10_edits_reference_real_lines [{ num := 0, text := "a" }] [{ num := 0, text := "a" }]
    [equalEdit { num := 0, text := "a" }] (by decide)
    (equalEdit { num := 0, text := "a" }) (by decide)
